import Mathlib

/-!
Verification development for the `asciitree` tree pretty-printing library.

The repository contains two generations of several components, and both are
modelled here where the claims touch them:

* the legacy, index-based struct introspector `structInfo` (fieldcache.go),
  which validates `asciitree` struct tags via `asciitreeTagValues` and panics
  on duplicated or invalid tags, and the legacy visitor (`getNodeData`,
  `sortNodes`) that sorts node properties in place;
* the current, path-based introspector `findFieldsRecursively` with its
  `sync.Map`-backed cache `structInfoCache` (asciitree.go), the current
  visitor `MapStructVisitor` (`nodeLabel`, `nodeDetails`, `Get`, `Roots`,
  `sortedNodes` in doc.go) and the renderer (`renderSubtree`, `Render`).

Panics are modelled as `Except.error`; Go's potential unbounded recursion on
cyclic reference data is modelled with an explicit fuel parameter, so every
function here is executable and total.
-/

/-! ## Layout styler (style.go: `TreeStyle`, `TreeStyler`, render helpers) -/

/-- `TreeStyle` from style.go: the glyph set used for painting trees. -/
structure TreeStyle where
  Fork : String
  Nodeconn : String
  Nofork : String
  Lastnode : String
  Property : String
deriving DecidableEq, Repr

/-- `ASCIIStyle` from style.go: pure-ASCII glyphs. -/
def ASCIIStyle : TreeStyle :=
  { Fork := "+", Nodeconn := "-", Nofork := "|", Lastnode := "`", Property := "*" }

/-- `LineStyle` from style.go: Unicode box-drawing glyphs. -/
def LineStyle : TreeStyle :=
  { Fork := "├", Nodeconn := "─", Nofork := "│", Lastnode := "└", Property := "•" }

/-- `TreeStyler` from style.go: a glyph style plus the two indent widths,
which are Go `int`s and are therefore modelled as `Int`. -/
structure TreeStyler where
  Style : TreeStyle
  ChildIndent : Int
  PropIndent : Int
deriving DecidableEq, Repr

/-- `repeat` from style.go: like `strings.Repeat` but yielding the empty
string instead of panicking when the count is not positive. -/
def srepeat (s : String) (count : Int) : String :=
  if count > 0 then String.join (List.replicate count.toNat s) else ""

/-- `NewTreeStyler` from style.go: wraps a style with child indent 3 and
property indent 3. -/
def NewTreeStyler (style : TreeStyle) : TreeStyler :=
  { Style := style, ChildIndent := 3, PropIndent := 3 }

/-- `DefaultTreeStyler` from style.go: the ASCII styler. -/
def DefaultTreeStyler : TreeStyler := NewTreeStyler ASCIIStyle

/-- `LineTreeStyler` from style.go: the Unicode styler. -/
def LineTreeStyler : TreeStyler := NewTreeStyler LineStyle

/-- `renderNodeLabel` from style.go: node labels are unadorned. -/
def TreeStyler.renderNodeLabel (_s : TreeStyler) (label : String) : String := label

/-- `renderBranchedNode` from style.go. -/
def TreeStyler.renderBranchedNode (s : TreeStyler) (label : String) : String :=
  s.Style.Fork ++ srepeat s.Style.Nodeconn (s.ChildIndent - 2) ++ " " ++ label

/-- `renderLastNode` from style.go. -/
def TreeStyler.renderLastNode (s : TreeStyler) (label : String) : String :=
  s.Style.Lastnode ++ srepeat s.Style.Nodeconn (s.ChildIndent - 2) ++ " " ++ label

/-- `indentLine` from style.go. -/
def TreeStyler.indentLine (s : TreeStyler) (line : String) : String :=
  s.Style.Nofork ++ srepeat " " (s.ChildIndent - 2) ++ " " ++ line

/-- `indentLineLastNode` from style.go. -/
def TreeStyler.indentLineLastNode (s : TreeStyler) (line : String) : String :=
  srepeat " " s.ChildIndent ++ line

/-- `renderProperty` from style.go: property text is unadorned. -/
def TreeStyler.renderProperty (_s : TreeStyler) (prop : String) : String := prop

/-- `renderPropertyNoChildrenFollowing` from style.go: the leaf-property
variant, used when the node has no children. -/
def TreeStyler.renderPropertyNoChildrenFollowing (s : TreeStyler) (prop : String) : String :=
  srepeat " " s.PropIndent ++ s.Style.Property ++ " " ++ prop

/-- `renderPropertyChildrenFollowing` from style.go: the variant used when
child branches follow below the property lines. -/
def TreeStyler.renderPropertyChildrenFollowing (s : TreeStyler) (prop : String) : String :=
  s.Style.Nofork ++ srepeat " " (s.PropIndent - 1) ++ s.Style.Property ++ " " ++ prop

/-! ## Struct shapes

A Go struct type, as the introspectors see it through `reflect`: an ordered
sequence of fields, where each field carries the (optional) value of its
`asciitree` struct tag (`none` models an absent tag key), and is either

* `fld`: a field whose type is not a struct (or an anonymous non-struct
  field; both generations treat those purely via the tag);
* `anon`: an anonymous (embedded) field of struct type, carrying the
  embedded struct's own field sequence — the only case the introspectors
  descend into;
* `named`: a non-anonymous field of struct type, carrying that struct's
  field sequence; the introspectors must not descend into it.

`rest` is the remainder of the field sequence of the same struct. -/

inductive FieldSeq where
  | nil
  | fld (tag : Option String) (rest : FieldSeq)
  | anon (tag : Option String) (sub : FieldSeq) (rest : FieldSeq)
  | named (tag : Option String) (sub : FieldSeq) (rest : FieldSeq)
deriving DecidableEq, Repr

/-- `reflect.StructTag.Get`: the raw tag value, `""` when absent. -/
def tagGet : Option String → String
  | none => ""
  | some s => s

/-! ## Current path-based introspector (asciitree.go: `structFields`,
`findFieldsRecursively`, `hasAsciitreeTagValue`, `structInfoCache`) -/

/-- `structFields` from asciitree.go: the four role locations as index
paths; `none` models a nil path (role absent). -/
structure StructFields where
  LabelPath : Option (List Nat)
  PropertiesPath : Option (List Nat)
  ChildrenPath : Option (List Nat)
  RootsPath : Option (List Nat)
deriving DecidableEq, Repr

/-- The zero `structFields` value (`&structFields{}`). -/
def emptySF : StructFields := ⟨none, none, none, none⟩

/-- `hasAsciitreeTagValue` from asciitree.go: the field's `asciitree` tag is
present and equals `value` verbatim (no splitting, no validation). -/
def hasAsciitreeTagValue (tag : Option String) (value : String) : Bool :=
  tag = some value

/-- One loop iteration body of `findFieldsRecursively` for a non-descended
field: the chain of `if sf.XPath == nil && hasAsciitreeTagValue(field, "x")`
checks, recording `append(clone(path), fieldIdx)` for the first match. -/
def setTagged (tag : Option String) (path : List Nat) (idx : Nat) (sf : StructFields) :
    StructFields :=
  if sf.LabelPath = none ∧ hasAsciitreeTagValue tag "label" then
    { sf with LabelPath := some (path ++ [idx]) }
  else if sf.PropertiesPath = none ∧ hasAsciitreeTagValue tag "properties" then
    { sf with PropertiesPath := some (path ++ [idx]) }
  else if sf.ChildrenPath = none ∧ hasAsciitreeTagValue tag "children" then
    { sf with ChildrenPath := some (path ++ [idx]) }
  else if sf.RootsPath = none ∧ hasAsciitreeTagValue tag "roots" then
    { sf with RootsPath := some (path ++ [idx]) }
  else sf

/-- `findFieldsRecursively` from asciitree.go, as the loop over the field
sequence: anonymous struct fields are recursed into depth-first (their own
tag is skipped by the `continue`), all other fields go through the tag
checks; named struct fields are not descended into. -/
def findLoop : FieldSeq → List Nat → Nat → StructFields → StructFields
  | .nil, _, _, sf => sf
  | .fld tag rest, path, idx, sf =>
      findLoop rest path (idx + 1) (setTagged tag path idx sf)
  | .anon _ sub rest, path, idx, sf =>
      findLoop rest path (idx + 1) (findLoop sub (path ++ [idx]) 0 sf)
  | .named tag _ rest, path, idx, sf =>
      findLoop rest path (idx + 1) (setTagged tag path idx sf)

/-- `findFieldsRecursively(structT, nil, &structFields{})` as called from
`structInfoCache` on a cache miss. -/
def findFieldsRecursively (fields : FieldSeq) : StructFields :=
  findLoop fields [] 0 emptySF

/-! ## Legacy index-based introspector (fieldcache.go: `fieldCacheItem`,
`structInfo`, `asciitreeTagValues`) -/

/-- `fieldCacheItem` from fieldcache.go: four field indices, `-1` meaning
absent (Go `int`, modelled as `Int`). -/
structure FieldCacheItem where
  labelIndex : Int
  propertiesIndex : Int
  childrenIndex : Int
  rootsIndex : Int
deriving DecidableEq, Repr

/-- The panic message of `structInfo` for a duplicated role tag. The Go
message interpolates the offending type via `%T`; the model keeps the fixed
part of the message. -/
def doubleTagMsg (role : String) : String :=
  "double ascii:\"" ++ role ++ "\" tag"

/-- The panic message of `structInfo` for invalid tag values. -/
def invalidTagsMsg (errs : List String) : String :=
  "invalid asciitree tag(s) " ++ String.intercalate "," errs

/-- `strings.Split(s, ",")` on the character data of a string. -/
def splitComma : List Char → List (List Char)
  | [] => [[]]
  | c :: rest =>
      match splitComma rest with
      | [] => [[c]]
      | g :: gs => if c = ',' then [] :: g :: gs else (c :: g) :: gs

/-- `strings.TrimSpace` on character data (Go trims Unicode white space;
`Char.isWhitespace` covers the characters a struct tag can contain). -/
def trimChars (cs : List Char) : List Char :=
  (((cs.dropWhile Char.isWhitespace).reverse).dropWhile Char.isWhitespace).reverse

/-- `asciitreeTagValues` from fieldcache.go: splits the raw tag value on
commas, trims blanks, drops empties; returns the valid role names with
`true`, or exactly the invalid values with `false`. -/
def asciitreeTagValues (tagval : String) : List String × Bool :=
  let step := fun (acc : List String × List String) (v : String) =>
    if v.length > 0 then
      if v = "roots" ∨ v = "label" ∨ v = "properties" ∨ v = "children" then
        (acc.1 ++ [v], acc.2)
      else
        (acc.1, acc.2 ++ [v])
    else acc
  let pair := ((splitComma tagval.data).map (fun cs => String.mk (trimChars cs))).foldl
    step ([], [])
  if pair.2 ≠ [] then (pair.2, false) else (pair.1, true)

/-- The merge step of `structInfo` for an anonymous embedded struct: each
role found in the embedded struct is copied into the outer record, panicking
when the outer record already has that role (from any source). Note that the
copied value is the index inside the embedded struct. -/
def mergeAnon (anon sinfo : FieldCacheItem) : Except String FieldCacheItem := do
  let s1 ←
    if anon.labelIndex ≥ 0 then
      if sinfo.labelIndex ≥ 0 then throw (doubleTagMsg "label")
      else pure { sinfo with labelIndex := anon.labelIndex }
    else pure sinfo
  let s2 ←
    if anon.propertiesIndex ≥ 0 then
      if s1.propertiesIndex ≥ 0 then throw (doubleTagMsg "properties")
      else pure { s1 with propertiesIndex := anon.propertiesIndex }
    else pure s1
  let s3 ←
    if anon.childrenIndex ≥ 0 then
      if s2.childrenIndex ≥ 0 then throw (doubleTagMsg "children")
      else pure { s2 with childrenIndex := anon.childrenIndex }
    else pure s2
  if anon.rootsIndex ≥ 0 then
    if s3.rootsIndex ≥ 0 then throw (doubleTagMsg "roots")
    else pure { s3 with rootsIndex := anon.rootsIndex }
  else pure s3

/-- The `switch tag` body of `structInfo`: records the field index for the
role, panicking when the role is already assigned. -/
def applyTag (idx : Int) (sinfo : FieldCacheItem) (tag : String) : Except String FieldCacheItem :=
  if tag = "label" then
    if sinfo.labelIndex ≥ 0 then throw (doubleTagMsg "label")
    else pure { sinfo with labelIndex := idx }
  else if tag = "properties" then
    if sinfo.propertiesIndex ≥ 0 then throw (doubleTagMsg "properties")
    else pure { sinfo with propertiesIndex := idx }
  else if tag = "children" then
    if sinfo.childrenIndex ≥ 0 then throw (doubleTagMsg "children")
    else pure { sinfo with childrenIndex := idx }
  else if tag = "roots" then
    if sinfo.rootsIndex ≥ 0 then throw (doubleTagMsg "roots")
    else pure { sinfo with rootsIndex := idx }
  else pure sinfo

/-- The tag-processing tail of one `structInfo` loop iteration: validate the
raw tag value, panic on invalid values, then apply each role. -/
def applyFieldTag (tag : Option String) (idx : Int) (sinfo : FieldCacheItem) :
    Except String FieldCacheItem :=
  let pair := asciitreeTagValues (tagGet tag)
  if pair.2 = false then throw (invalidTagsMsg pair.1)
  else pair.1.foldlM (fun acc t => applyTag idx acc t) sinfo

/-- The field loop of `structInfo` from fieldcache.go (the caching wrapper
is dropped: the scan is deterministic, so recomputation is equivalent).
Anonymous embedded struct fields are scanned recursively and merged, and —
since the merge branch does not `continue` — their own tag is processed
afterwards as well. Named struct fields are handled by tag only. -/
def scanLoop : FieldSeq → Int → FieldCacheItem → Except String FieldCacheItem
  | .nil, _, s => .ok s
  | .fld tag rest, idx, s => do
      scanLoop rest (idx + 1) (← applyFieldTag tag idx s)
  | .anon tag sub rest, idx, s => do
      let anonInfo ← scanLoop sub 0 ⟨-1, -1, -1, -1⟩
      let s1 ← mergeAnon anonInfo s
      scanLoop rest (idx + 1) (← applyFieldTag tag idx s1)
  | .named tag _ rest, idx, s => do
      scanLoop rest (idx + 1) (← applyFieldTag tag idx s)

/-- The scan performed by `structInfo` on first use of a struct type. -/
def structScan (fields : FieldSeq) : Except String FieldCacheItem :=
  scanLoop fields 0 ⟨-1, -1, -1, -1⟩

/-! ## Type-shape cache (asciitree.go: `structFieldsCache`, `structInfoCache`)

`structInfoCache` returns a `*structFields` pointer. Pointer identity is
modelled by an explicit heap: `heap` holds the computed `structFields`
records and an address is an index into it; `entries` is the `sync.Map`
keyed by the struct type. Returning the same address models returning the
identical object. -/

structure CacheState where
  entries : List (FieldSeq × Nat)
  heap : List StructFields
deriving Repr

/-- `cache.Load`: look a struct type up in the cache map. -/
def cacheLookup : List (FieldSeq × Nat) → FieldSeq → Option Nat
  | [], _ => none
  | (t, a) :: rest, key => if key = t then some a else cacheLookup rest key

/-- `structInfoCache` from asciitree.go for struct-kind values: on a hit the
cached address is returned unchanged; on a miss `findFieldsRecursively`
computes a fresh `structFields`, which is published at a fresh address
(`LoadOrStore`, single-threaded here, so the store always wins). -/
def structInfoCacheM (σ : CacheState) (t : FieldSeq) : Nat × CacheState :=
  match cacheLookup σ.entries t with
  | some a => (a, σ)
  | none =>
      (σ.heap.length,
        { entries := (t, σ.heap.length) :: σ.entries,
          heap := σ.heap ++ [findFieldsRecursively t] })

/-- Run a sequence of further `structInfoCache` calls, keeping only the
cache state. -/
def runCalls (σ : CacheState) (qs : List FieldSeq) : CacheState :=
  qs.foldl (fun s q => (structInfoCacheM s q).2) σ

/-- Cache well-formedness: every published entry points at the heap cell
holding exactly the scan result for its type. Holds for the initial empty
cache and is preserved by every call. -/
def WFCache (σ : CacheState) : Prop :=
  ∀ p ∈ σ.entries, σ.heap[p.2]? = some (findFieldsRecursively p.1)

/-- The program's initial cache state (empty `sync.Map`). -/
def initCache : CacheState := { entries := [], heap := [] }

/-! ## Runtime values and the visitor (doc.go: `MapStructVisitor`)

`V` models the runtime values the visitor dispatches on, by `reflect.Kind`:
strings, ints, `[]string` slices, general slices, maps with string keys,
and structs. A struct is modelled post-introspection, carrying the values of
its three role fields (the canonical tagged shape used throughout the
rendering claims); shapes themselves are the business of `FieldSeq` above. -/

inductive V where
  | strv (s : String)
  | intv (n : Int)
  | strs (ss : List String)
  | list (xs : List V)
  | stru (label : String) (props : List String) (children : List V)
  | mapn (entries : List (String × V))

/-- Go map indexing with a string key (first binding wins, as the model of a
map with unique keys). -/
def lookupV : List (String × V) → String → Option V
  | [], _ => none
  | (k, v) :: rest, key => if key = k then some v else lookupV rest key

/-- The `reflect.Kind` name of a value, as `%q`/`%T` print it for the kinds
in this model. -/
def kindName : V → String
  | .strv _ => "string"
  | .intv _ => "int"
  | .strs _ => "slice"
  | .list _ => "slice"
  | .stru _ _ _ => "struct"
  | .mapn _ => "map"

/-- Is the value of slice kind? -/
def isSliceV : V → Bool
  | .strs _ => true
  | .list _ => true
  | _ => false

/-- Is the value a string? (dynamic type check used for map label values) -/
def isStrV : V → Bool
  | .strv _ => true
  | _ => false

/-- `anySlice` from doc.go: the elements of a slice value as `[]any`, or nil
for non-slices (nil is modelled as `[]` at the use sites, which is how the
callers consume it). -/
def anySliceV : V → List V
  | .list xs => xs
  | .strs ss => ss.map V.strv
  | _ => []

/-- `MapStructVisitor` from doc.go: the two sorting switches. -/
structure MSV where
  SortNodes : Bool
  SortProperties : Bool
deriving DecidableEq, Repr

/-- `DefaultVisitor` from doc.go: no sorting. -/
def DefaultVisitor : MSV := ⟨false, false⟩

/-- `MapStructVisitor.nodeLabel` from doc.go. A struct of the canonical
tagged shape yields its label field; for maps, the `label` value is
unwrapped from its interface and yields `""` unless it is a string; other
kinds panic. -/
def nodeLabelM : V → Except String String
  | .stru l _ _ => .ok l
  | .mapn m =>
      .ok (match lookupV m "label" with
        | some (.strv s) => s
        | _ => "")
  | v => .error ("unsupported asciitree node or root type " ++ kindName v)

/-- Lexicographic "less or equal" on character data: the executable model of
Go's byte-wise string comparison (`strings.Compare(a, b) <= 0`; on UTF-8
data, byte order and codepoint order coincide). -/
def charListLe : List Char → List Char → Bool
  | [], _ => true
  | _ :: _, [] => false
  | c :: cs, d :: ds => if c < d then true else if d < c then false else charListLe cs ds

/-- The comparison relation of `sortedNodes` from doc.go:
`strings.Compare` on the extracted labels, i.e. lexicographic order on the
label component. -/
def labelLe (a b : String × V) : Prop := charListLe a.1.data b.1.data = true

instance : DecidableRel labelLe :=
  fun a b => inferInstanceAs (Decidable (charListLe a.1.data b.1.data = true))

/-- The stable sort of `labelledNode` records performed by
`slices.SortStableFunc(labelledNodes, strings.Compare on labels)` in
`sortedNodes` (doc.go). A stable sort is extensionally unique, so it is
modelled by insertion sort, which is proved sorted, a permutation, and
stable below. -/
def sortPairs (ps : List (String × V)) : List (String × V) :=
  ps.insertionSort labelLe

/-- The label-extraction pass of `sortedNodes` (doc.go): pair every node
with `v.Label(node)`; a node for which `Label` panics aborts the pass. -/
def labelledList (nodes : List V) : Except String (List (String × V)) :=
  nodes.mapM (fun n => (nodeLabelM n).map (fun l => (l, n)))

/-- `MapStructVisitor.sortedNodes` from doc.go: pair nodes with their
labels, stable-sort by label, then extract the nodes into a fresh slice. -/
def sortedNodesM (nodes : List V) : Except String (List V) :=
  (labelledList nodes).map (fun ps => (sortPairs ps).map Prod.snd)

/-- `sort.Strings`, used by `Get` for property sorting: lexicographic
ascending sort of a string slice. -/
def sortStrings (ss : List String) : List String :=
  ss.insertionSort (fun a b => charListLe a.data b.data = true)

/-- `MapStructVisitor.nodeDetails` from doc.go: label, properties and
children of a struct (canonical tagged shape) or of a map via the well-known
keys; children are sorted through `sortedNodes` when `SortNodes` is set;
other kinds panic. The map `properties` value must have dynamic type
`[]string` for the ok-assertion to yield anything (a `[]any` of strings
yields nil). -/
def nodeDetailsM (vf : MSV) : V → Except String (String × List String × List V)
  | .stru l ps cs => do
      let cs2 ← if vf.SortNodes then sortedNodesM cs else pure cs
      pure (l, ps, cs2)
  | .mapn m => do
      let label := match lookupV m "label" with | some (.strv s) => s | _ => ""
      let props := match lookupV m "properties" with | some (.strs ss) => ss | _ => []
      let children ← match lookupV m "children" with
        | none => pure []
        | some chs =>
            if vf.SortNodes then sortedNodesM (anySliceV chs) else pure (anySliceV chs)
      pure (label, props, children)
  | v => .error ("unsupported asciitree node or root type " ++ kindName v)

/-- `MapStructVisitor.Get` from doc.go: `nodeDetails`, then — when
`SortProperties` is set — the properties are cloned and the clone is sorted
(`slices.Clone` + `sort.Strings`); the heap-level aliasing of this step is
modelled separately below. -/
def GetM (vf : MSV) (v : V) : Except String (String × List String × List V) := do
  let (l, ps, cs) ← nodeDetailsM vf v
  pure (l, if vf.SortProperties then sortStrings ps else ps, cs)

/-- `MapStructVisitor.Roots` from doc.go, with fuel for the recursion
through `roots`-keyed map values: a slice yields its (optionally sorted)
elements; a canonical struct without a roots field yields itself; a map
yields itself unless it has a `roots` key, whose value is unwrapped (one
more `Roots` application when it is a slice); other kinds panic. -/
def RootsM (vf : MSV) : Nat → V → Except String (List V)
  | 0, _ => .error "roots recursion limit"
  | fuel + 1, v =>
      match v with
      | .list _ | .strs _ =>
          if vf.SortNodes then sortedNodesM (anySliceV v) else pure (anySliceV v)
      | .stru l ps cs => pure [.stru l ps cs]
      | .mapn m =>
          match lookupV m "roots" with
          | none => pure [.mapn m]
          | some mr => if isSliceV mr then RootsM vf fuel mr else pure [mr]
      | w => .error ("expecting roots to be a slice, struct, or map, but got " ++ kindName w)

/-! ## Recursive renderer (asciitree.go: `renderSubtree`, `Render`) -/

/-- The child-styling pass of `renderSubtree`: the first line of every
child's sub-rendering gets a branch glyph (fork for intermediate children,
last-node glyph for the final child), every further line gets the matching
continuation indent. -/
def styleKids (sty : TreeStyler) : List (List String) → List String
  | [] => []
  | [ls] =>
      match ls with
      | [] => []
      | l0 :: rest => sty.renderLastNode l0 :: rest.map sty.indentLineLastNode
  | ls :: more =>
      (match ls with
        | [] => []
        | l0 :: rest => sty.renderBranchedNode l0 :: rest.map sty.indentLine) ++
      styleKids sty more

/-- `renderSubtree` from asciitree.go: fetch `(label, properties, children)`
through the visitor, emit the label line, then one line per property —
styled `renderPropertyChildrenFollowing` unless the children list is empty —
then the styled sub-renderings of all children. Fuel models the recursion
depth (unbounded in Go for cyclic data). -/
def renderSubtreeM (vf : MSV) (sty : TreeStyler) : Nat → V → Except String (List String)
  | 0, _ => .error "render recursion limit"
  | fuel + 1, v => do
      let (label, props, children) ← GetM vf v
      let renderProp := if children.length = 0 then sty.renderPropertyNoChildrenFollowing
        else sty.renderPropertyChildrenFollowing
      let propLines := props.map (fun p => renderProp (sty.renderProperty p))
      let kidLines ← children.mapM (fun c => renderSubtreeM vf sty fuel c)
      pure (sty.renderNodeLabel label :: propLines ++ styleKids sty kidLines)

/-- `strings.Join(lines, "\n")`. -/
def joinNl (lines : List String) : String := String.intercalate "\n" lines

/-- `Render` from asciitree.go: dispatch on the kind of the roots argument —
slices are resolved through `visitor.Roots` and every root's subtree is
rendered and newline-terminated; a struct is rendered as the single root; a
map is rendered as the single root unless it has a `roots` key, in which
case `Render` recurses on that value; every other kind panics with
`"unsupported roots type %q"` naming the offending kind, before any output
is produced. -/
def RenderM (vf : MSV) (sty : TreeStyler) : Nat → V → Except String String
  | 0, _ => .error "render recursion limit"
  | fuel + 1, v =>
      match v with
      | .list _ | .strs _ => do
          let roots ← RootsM vf (fuel + 1) v
          let pieces ← roots.mapM
            (fun r => (renderSubtreeM vf sty fuel r).map (fun ls => joinNl ls ++ "\n"))
          pure (String.join pieces)
      | .stru l ps cs => do
          let lines ← renderSubtreeM vf sty fuel (.stru l ps cs)
          pure (joinNl lines ++ "\n")
      | .mapn m =>
          match lookupV m "roots" with
          | none => do
              let lines ← renderSubtreeM vf sty fuel (.mapn m)
              pure (joinNl lines ++ "\n")
          | some mr => RenderM vf sty fuel mr
      | other => .error ("unsupported roots type \"" ++ kindName other ++ "\"")

/-! ## Slice aliasing of `Get` (doc.go `Get` vs the legacy visitor's `Get`)

The caller's tree data lives in a heap of string slices: an address is an
index, a cell holds the slice contents. A node's `properties` field and its
`children` field are addresses `pa` and `ka` (children cell elements stand
for the child nodes, identified by their labels, which is what sorting
inspects). -/

abbrev StrHeap := List (List String)

/-- Read a slice cell (out-of-range reads yield the empty slice). -/
def readStrs (h : StrHeap) (a : Nat) : List String := (h[a]?).getD []

/-- `Get` of the current visitor (doc.go): children are read and, when
sorting, rebuilt into fresh slices by `sortedNodes`; properties are read
and, when sorting, `slices.Clone` allocates a fresh cell whose contents
`sort.Strings` then sorts in place. No caller-owned cell is written. -/
def GetCurrent (sn sp : Bool) (h : StrHeap) (pa ka : Nat) :
    StrHeap × List String × List String :=
  let kids := if sn then sortStrings (readStrs h ka) else readStrs h ka
  if sp then
    let ca := h.length
    let h1 := (h ++ [readStrs h pa]).set ca (sortStrings (readStrs h pa))
    (h1, readStrs h1 ca, kids)
  else (h, readStrs h pa, kids)

/-- `Get` of the legacy visitor (part of the sources as `getNodeData` plus
`Get`): children are sorted on a copy (`sortNodes` with `copy=true`
allocates a fresh cell via `reflect.MakeSlice`/`reflect.Copy` and sorts the
copy in place), but `sort.Strings(properties)` then sorts the caller's
properties cell in place. -/
def GetLegacy (sn sp : Bool) (h : StrHeap) (pa ka : Nat) :
    StrHeap × List String × List String :=
  let hkids :=
    if sn then
      let ca := h.length
      let h1 := (h ++ [readStrs h ka]).set ca (sortStrings (readStrs h ka))
      (h1, readStrs h1 ca)
    else (h, readStrs h ka)
  let h1 := hkids.1
  if sp then
    let h2 := h1.set pa (sortStrings (readStrs h1 pa))
    (h2, readStrs h2 pa, hkids.2)
  else (h1, readStrs h1 pa, hkids.2)

/-! ## Auxiliary definitions used by the claim statements -/

/-- The kinds accepted by `Render` as a roots argument: slice, struct, map. -/
def rootsKindOk : V → Bool
  | .strs _ => true
  | .list _ => true
  | .stru _ _ _ => true
  | .mapn _ => true
  | _ => false

/-- Erase the contents of every named (non-anonymous) struct-typed field,
everywhere in a shape; used to state that the introspectors never look
inside named nested structs. -/
def eraseNamed : FieldSeq → FieldSeq
  | .nil => .nil
  | .fld tag rest => .fld tag (eraseNamed rest)
  | .anon tag sub rest => .anon tag (eraseNamed sub) (eraseNamed rest)
  | .named tag _ rest => .named tag .nil (eraseNamed rest)

/-- Remove the `label` key from a map value. -/
def eraseLabelKey : List (String × V) → List (String × V)
  | [] => []
  | (k, v) :: rest => if k = "label" then eraseLabelKey rest else (k, v) :: eraseLabelKey rest

/-! ## Theorems -/

/-- C1: rendering the single-root tree `root → [1, 2 → [2.1]]` with the
default visitor and the default ASCII styler (child indent 3, prop indent 3)
yields exactly `"root\n+- 1\n`- 2\n   `- 2.1\n"`: the first child line uses
the fork glyph `+- `, the last child line the last-node glyph `` `- ``, and
the continuation line under the last child is prefixed with three blanks. -/
theorem render_default_ascii_two_level_tree :
    RenderM DefaultVisitor DefaultTreeStyler 4
      (V.stru "root" [] [V.stru "1" [] [], V.stru "2" [] [V.stru "2.1" [] []]])
      = .ok "root\n+- 1\n`- 2\n   `- 2.1\n" := rfl

/-- C8: for a roots argument of any kind other than slice, struct, or map,
`Render` fails immediately — before producing any output — with the
unsupported-roots-type fault naming the offending kind. -/
theorem render_unsupported_roots_type (vf : MSV) (sty : TreeStyler) (fuel : Nat) (v : V)
    (h : rootsKindOk v = false) :
    RenderM vf sty (fuel + 1) v
      = .error ("unsupported roots type \"" ++ kindName v ++ "\"") := by
  cases v <;> simp [rootsKindOk] at h <;> rfl

/-- Witness for C8 at a bare integer: the fault message names `int`. -/
theorem render_unsupported_roots_type_witness :
    rootsKindOk (V.intv 42) = false
    ∧ RenderM DefaultVisitor DefaultTreeStyler 7 (V.intv 42)
        = .error "unsupported roots type \"int\"" :=
  ⟨rfl, render_unsupported_roots_type DefaultVisitor DefaultTreeStyler 6 (V.intv 42) rfl⟩

/-- C3 counterexample: a shape that tags `label` on two members at the same
nesting level. The current path-based introspector does not fault (it is a
total function with no panic statement): it silently keeps the first tagged
member (path `[0]`), and the first use of the shape through the type cache
publishes exactly that silently-resolved result. -/
theorem findFields_double_label_keeps_first_silently :
    findFieldsRecursively (.fld (some "label") (.fld (some "label") .nil))
      = { LabelPath := some [0], PropertiesPath := none, ChildrenPath := none, RootsPath := none }
    ∧ (structInfoCacheM initCache (.fld (some "label") (.fld (some "label") .nil))).2.heap
      = [{ LabelPath := some [0], PropertiesPath := none, ChildrenPath := none,
           RootsPath := none }] :=
  ⟨rfl, rfl⟩

/-- C3 amended: for each of the four roles, duplicating the role tag at the
same nesting level makes the legacy introspector (`structInfo`) fault on
first use of the shape, while the current introspector
(`findFieldsRecursively`) does not fault and yields exactly what the shape
without the second tagged member yields (the second member is silently
ignored). -/
theorem double_role_tag_legacy_faults_current_keeps_first (r : String)
    (h : r = "label" ∨ r = "properties" ∨ r = "children" ∨ r = "roots") :
    structScan (.fld (some r) (.fld (some r) .nil)) = .error (doubleTagMsg r)
    ∧ findFieldsRecursively (.fld (some r) (.fld (some r) .nil))
        = findFieldsRecursively (.fld (some r) .nil) := by
  rcases h with h | h | h | h <;> subst h <;> exact ⟨rfl, rfl⟩

/-- Witness for C3 (amended) at the `label` role. -/
theorem double_role_tag_witness :
    structScan (.fld (some "label") (.fld (some "label") .nil))
      = .error (doubleTagMsg "label")
    ∧ findFieldsRecursively (.fld (some "label") (.fld (some "label") .nil))
        = findFieldsRecursively (.fld (some "label") .nil) :=
  double_role_tag_legacy_faults_current_keeps_first "label" (Or.inl rfl)

/-- C4 counterexample: a shape whose first member is an anonymous embedded
struct with a `label`-tagged field and whose second member is an outer
`label`-tagged field. The current introspector resolves the label to the
embedded member (path `[0, 0]`), not to the outer (shallower) member at
index 1: the embedded role does override the outer one when the embed is
declared first, and no fault is raised. -/
theorem embedded_role_overrides_outer_when_declared_first :
    findFieldsRecursively
        (.anon none (.fld (some "label") .nil) (.fld (some "label") .nil))
      = { LabelPath := some [0, 0], PropertiesPath := none, ChildrenPath := none,
          RootsPath := none } :=
  rfl

/-- Erasing the contents of named struct-typed fields does not change the
current introspector's scan: `findFieldsRecursively` never descends into
named fields. -/
theorem findLoop_eraseNamed (fs : FieldSeq) :
    ∀ (path : List Nat) (idx : Nat) (sf : StructFields),
      findLoop (eraseNamed fs) path idx sf = findLoop fs path idx sf := by
  induction fs with
  | nil => intro path idx sf; rfl
  | fld tag rest ih => intro path idx sf; simp [eraseNamed, findLoop, ih]
  | anon tag sub rest ihsub ihrest =>
      intro path idx sf; simp [eraseNamed, findLoop, ihsub, ihrest]
  | named tag sub rest ihsub ihrest =>
      intro path idx sf; simp [eraseNamed, findLoop, ihrest]

/-- Erasing the contents of named struct-typed fields does not change the
legacy introspector's scan either: `structInfo` only recurses into
anonymous embedded struct fields. -/
theorem scanLoop_eraseNamed (fs : FieldSeq) :
    ∀ (idx : Int) (s : FieldCacheItem),
      scanLoop (eraseNamed fs) idx s = scanLoop fs idx s := by
  induction fs with
  | nil => intro idx s; rfl
  | fld tag rest ih => intro idx s; simp [eraseNamed, scanLoop, ih]
  | anon tag sub rest ihsub ihrest =>
      intro idx s; simp [eraseNamed, scanLoop, ihsub, ihrest]
  | named tag sub rest ihsub ihrest =>
      intro idx s; simp [eraseNamed, scanLoop, ihrest]

/-- C4 amended: role precedence in the current introspector is depth-first
declaration order, not nesting depth — an anonymous embed declared before an
outer member wins over the outer member for the same role (path `[0, 0]`),
while an outer member declared first wins over a later embed (path `[0]`);
no fault is raised in either order. The legacy introspector instead faults
on an embed/outer duplicate in both declaration orders. Named
(non-anonymous) nested struct members are never scanned by either
introspector. -/
theorem anonymous_embedding_role_precedence :
    findFieldsRecursively
        (.anon none (.fld (some "label") .nil) (.fld (some "label") .nil))
      = { LabelPath := some [0, 0], PropertiesPath := none, ChildrenPath := none,
          RootsPath := none }
    ∧ findFieldsRecursively
        (.fld (some "label") (.anon none (.fld (some "label") .nil) .nil))
      = { LabelPath := some [0], PropertiesPath := none, ChildrenPath := none,
          RootsPath := none }
    ∧ structScan (.anon none (.fld (some "label") .nil) (.fld (some "label") .nil))
      = .error (doubleTagMsg "label")
    ∧ structScan (.fld (some "label") (.anon none (.fld (some "label") .nil) .nil))
      = .error (doubleTagMsg "label")
    ∧ (∀ fs : FieldSeq, findFieldsRecursively (eraseNamed fs) = findFieldsRecursively fs)
    ∧ (∀ fs : FieldSeq, structScan (eraseNamed fs) = structScan fs) :=
  ⟨rfl, rfl, rfl, rfl,
    fun fs => findLoop_eraseNamed fs [] 0 emptySF,
    fun fs => scanLoop_eraseNamed fs 0 ⟨-1, -1, -1, -1⟩⟩

/-- C5 counterexample: a shape with a member whose `asciitree` tag value is
`"foo"` — outside the four roles. The current introspector does not fault
(it is total, with no panic path): the invalid tag is silently ignored, and
the scan yields exactly what it yields for an untagged member. -/
theorem invalid_tag_silently_ignored_by_current_introspector :
    findFieldsRecursively (.fld (some "foo") .nil) = emptySF
    ∧ findFieldsRecursively (.fld (some "foo") .nil)
        = findFieldsRecursively (.fld none .nil) :=
  ⟨rfl, rfl⟩

/-- Binding after a failed `Except` computation keeps the failure. -/
theorem error_bind {α β : Type} (e : String) (f : α → Except String β) :
    (Except.error e >>= f : Except String β) = Except.error e := rfl

/-- C5 amended: for any tag value that `asciitreeTagValues` rejects, the
legacy introspector (`structInfo`) faults at first use of the shape — also
when the invalidly tagged member sits inside an anonymous embed — while the
current introspector (`findFieldsRecursively`/`hasAsciitreeTagValue`)
silently treats the member as untagged. -/
theorem invalid_tag_legacy_faults_current_ignores (v : String) (errs : List String)
    (h : asciitreeTagValues v = (errs, false)) :
    structScan (.fld (some v) .nil) = .error (invalidTagsMsg errs)
    ∧ structScan (.anon none (.fld (some v) .nil) .nil) = .error (invalidTagsMsg errs)
    ∧ findFieldsRecursively (.fld (some v) .nil) = emptySF := by
  have hne : ∀ r : String, (asciitreeTagValues r).2 = true → v ≠ r := by
    intro r hr he
    rw [he] at h
    rw [h] at hr
    cases hr
  have h1 : v ≠ "label" := hne "label" rfl
  have h2 : v ≠ "properties" := hne "properties" rfl
  have h3 : v ≠ "children" := hne "children" rfl
  have h4 : v ≠ "roots" := hne "roots" rfl
  refine ⟨?_, ?_, ?_⟩
  · simp only [structScan, scanLoop, applyFieldTag, tagGet, h]
    rfl
  · simp only [structScan, scanLoop, applyFieldTag, tagGet, h]
    rfl
  · simp [findFieldsRecursively, findLoop, setTagged, hasAsciitreeTagValue, h1, h2, h3, h4,
      emptySF]

/-- Witness for C5 (amended) at the tag value `"foo"`. -/
theorem invalid_tag_witness :
    asciitreeTagValues "foo" = (["foo"], false)
    ∧ structScan (.fld (some "foo") .nil) = .error (invalidTagsMsg ["foo"])
    ∧ structScan (.anon none (.fld (some "foo") .nil) .nil)
        = .error (invalidTagsMsg ["foo"])
    ∧ findFieldsRecursively (.fld (some "foo") .nil) = emptySF :=
  ⟨rfl,
    (invalid_tag_legacy_faults_current_ignores "foo" ["foo"] rfl).1,
    (invalid_tag_legacy_faults_current_ignores "foo" ["foo"] rfl).2.1,
    (invalid_tag_legacy_faults_current_ignores "foo" ["foo"] rfl).2.2⟩

/-- A successful cache lookup comes from an entry of the cache. -/
theorem cacheLookup_mem (es : List (FieldSeq × Nat)) (key : FieldSeq) (a : Nat)
    (h : cacheLookup es key = some a) : (key, a) ∈ es := by
  induction es with
  | nil => cases h
  | cons p rest ih =>
      obtain ⟨t, b⟩ := p
      by_cases he : key = t
      · subst he
        simp [cacheLookup] at h
        subst h
        exact List.mem_cons_self _ _
      · simp [cacheLookup, he] at h
        exact List.mem_cons_of_mem _ (ih h)

/-- After a `structInfoCache` call for `t`, the cache maps `t` to the
returned address. -/
theorem cacheLookup_after_call (σ : CacheState) (t : FieldSeq) :
    cacheLookup (structInfoCacheM σ t).2.entries t = some (structInfoCacheM σ t).1 := by
  unfold structInfoCacheM
  cases hl : cacheLookup σ.entries t with
  | some a => simp [hl]
  | none => simp [cacheLookup]

/-- After a `structInfoCache` call for `t` on a well-formed cache, the
returned address holds the scan result for `t`. -/
theorem heapAt_after_call (σ : CacheState) (t : FieldSeq) (hwf : WFCache σ) :
    (structInfoCacheM σ t).2.heap[(structInfoCacheM σ t).1]?
      = some (findFieldsRecursively t) := by
  unfold structInfoCacheM
  cases hl : cacheLookup σ.entries t with
  | some a =>
      simpa [hl] using hwf (t, a) (cacheLookup_mem σ.entries t a hl)
  | none => simp [hl]

/-- A cache binding survives any further `structInfoCache` call. -/
theorem cacheLookup_preserved (σ : CacheState) (q t : FieldSeq) (a : Nat)
    (h : cacheLookup σ.entries t = some a) :
    cacheLookup (structInfoCacheM σ q).2.entries t = some a := by
  unfold structInfoCacheM
  cases hl : cacheLookup σ.entries q with
  | some b => simpa
  | none =>
      have hne : t ≠ q := by
        intro he
        subst he
        rw [h] at hl
        cases hl
      simpa [cacheLookup, hne] using h

/-- A published heap cell survives any further `structInfoCache` call: the
heap is only ever appended to. -/
theorem heapAt_preserved (σ : CacheState) (q : FieldSeq) (a : Nat) (x : StructFields)
    (h : σ.heap[a]? = some x) : (structInfoCacheM σ q).2.heap[a]? = some x := by
  unfold structInfoCacheM
  cases hl : cacheLookup σ.entries q with
  | some b => simpa
  | none =>
      have hlt : a < σ.heap.length := by
        rcases List.getElem?_eq_some.mp h with ⟨hlt, _⟩
        exact hlt
      simp only [List.getElem?_append, if_pos hlt]
      exact h

/-- Both facts survive a whole sequence of further calls. -/
theorem runCalls_preserved (qs : List FieldSeq) (σ : CacheState) (t : FieldSeq)
    (a : Nat) (x : StructFields)
    (h1 : cacheLookup σ.entries t = some a) (h2 : σ.heap[a]? = some x) :
    cacheLookup (runCalls σ qs).entries t = some a ∧ (runCalls σ qs).heap[a]? = some x := by
  induction qs generalizing σ with
  | nil => exact ⟨h1, h2⟩
  | cons q rest ih =>
      exact ih _ (cacheLookup_preserved σ q t a h1) (heapAt_preserved σ q a x h2)

/-- Well-formedness of the cache is preserved by every call. -/
theorem WFCache_preserved (σ : CacheState) (q : FieldSeq) (hwf : WFCache σ) :
    WFCache (structInfoCacheM σ q).2 := by
  unfold structInfoCacheM
  cases hl : cacheLookup σ.entries q with
  | some a => simp only []; exact hwf
  | none =>
      intro p hp
      simp only [List.mem_cons] at hp
      rcases hp with rfl | hp
      · simp only []
        exact List.getElem?_concat_length σ.heap (findFieldsRecursively q)
      · have h := hwf p hp
        have hlt : p.2 < σ.heap.length := by
          rcases List.getElem?_eq_some.mp h with ⟨hlt, _⟩
          exact hlt
        simp only [List.getElem?_append, if_pos hlt]
        exact h

/-- The initial empty cache is well-formed. -/
theorem WFCache_init : WFCache initCache := by
  intro p hp
  cases hp

/-- A `structInfoCache` call that hits the cache returns the cached address
and leaves the state untouched. -/
theorem structInfoCacheM_hit (σ : CacheState) (t : FieldSeq) (a : Nat)
    (h : cacheLookup σ.entries t = some a) : structInfoCacheM σ t = (a, σ) := by
  unfold structInfoCacheM
  rw [h]

/-- C2: on any well-formed cache state, once a shape has been introspected,
every later introspection of the same shape — with arbitrary introspections
of other shapes in between — returns the very same heap address (the
identical `*structFields` object, not a recomputed copy), changes nothing,
and that address holds exactly the scan result for the shape. -/
theorem structInfoCache_identical_on_repeat (σ : CacheState) (t : FieldSeq)
    (qs : List FieldSeq) (hwf : WFCache σ) :
    (structInfoCacheM (runCalls (structInfoCacheM σ t).2 qs) t).1
        = (structInfoCacheM σ t).1
    ∧ (structInfoCacheM (runCalls (structInfoCacheM σ t).2 qs) t).2
        = runCalls (structInfoCacheM σ t).2 qs
    ∧ (runCalls (structInfoCacheM σ t).2 qs).heap[(structInfoCacheM σ t).1]?
        = some (findFieldsRecursively t) := by
  have hl := cacheLookup_after_call σ t
  have hh := heapAt_after_call σ t hwf
  have hp := runCalls_preserved qs _ t _ _ hl hh
  have hhit := structInfoCacheM_hit _ t _ hp.1
  exact ⟨by rw [hhit], by rw [hhit], hp.2⟩

/-- Witness for C2: starting from the program's initial empty cache,
introspect a shape, introspect a different shape, then introspect the first
shape again. -/
theorem structInfoCache_identical_on_repeat_witness :
    WFCache initCache
    ∧ ((structInfoCacheM
          (runCalls (structInfoCacheM initCache (.fld (some "label") .nil)).2
            [.fld (some "children") .nil])
          (.fld (some "label") .nil)).1
        = (structInfoCacheM initCache (.fld (some "label") .nil)).1
      ∧ (structInfoCacheM
          (runCalls (structInfoCacheM initCache (.fld (some "label") .nil)).2
            [.fld (some "children") .nil])
          (.fld (some "label") .nil)).2
        = runCalls (structInfoCacheM initCache (.fld (some "label") .nil)).2
            [.fld (some "children") .nil]
      ∧ (runCalls (structInfoCacheM initCache (.fld (some "label") .nil)).2
            [.fld (some "children") .nil]).heap[(structInfoCacheM initCache
              (.fld (some "label") .nil)).1]?
        = some (findFieldsRecursively (.fld (some "label") .nil))) :=
  ⟨WFCache_init,
    structInfoCache_identical_on_repeat initCache (.fld (some "label") .nil)
      [.fld (some "children") .nil] WFCache_init⟩

/-- `charListLe` is reflexive. -/
theorem charListLe_refl (cs : List Char) : charListLe cs cs = true := by
  induction cs with
  | nil => rfl
  | cons c rest ih => simp [charListLe, lt_irrefl, ih]

/-- `charListLe` is total. -/
theorem charListLe_total (as bs : List Char) :
    charListLe as bs = true ∨ charListLe bs as = true := by
  induction as generalizing bs with
  | nil => exact Or.inl rfl
  | cons a as ih =>
      cases bs with
      | nil => exact Or.inr rfl
      | cons b bs =>
          rcases lt_trichotomy a b with hab | hab | hab
          · exact Or.inl (by simp [charListLe, hab])
          · subst hab
            rcases ih bs with h | h
            · exact Or.inl (by simp [charListLe, lt_irrefl, h])
            · exact Or.inr (by simp [charListLe, lt_irrefl, h])
          · exact Or.inr (by simp [charListLe, hab])

/-- `charListLe` is transitive. -/
theorem charListLe_trans (as bs cs : List Char) (h1 : charListLe as bs = true)
    (h2 : charListLe bs cs = true) : charListLe as cs = true := by
  induction as generalizing bs cs with
  | nil => rfl
  | cons a as ih =>
      cases bs with
      | nil => simp [charListLe] at h1
      | cons b bs =>
          cases cs with
          | nil => simp [charListLe] at h2
          | cons c cs =>
              rcases lt_trichotomy a b with hab | hab | hab
              · rcases lt_trichotomy b c with hbc | hbc | hbc
                · simp [charListLe, lt_trans hab hbc]
                · subst hbc
                  simp [charListLe, hab]
                · simp [charListLe, not_lt_of_lt hbc, hbc] at h2
              · subst hab
                rcases lt_trichotomy a c with hac | hac | hac
                · simp [charListLe, hac]
                · subst hac
                  simp only [charListLe, lt_irrefl, if_false] at h1 h2 ⊢
                  exact ih bs cs h1 h2
                · simp [charListLe, not_lt_of_lt hac, hac] at h2
              · simp [charListLe, not_lt_of_lt hab, hab] at h1

instance : IsTotal (String × V) labelLe :=
  ⟨fun a b => charListLe_total a.1.data b.1.data⟩

instance : IsTrans (String × V) labelLe :=
  ⟨fun a b c h1 h2 => charListLe_trans a.1.data b.1.data c.1.data h1 h2⟩

/-- Inserting a pair into a list keeps the filtered-by-key sublist intact,
apart from prepending the pair itself when its key matches: `orderedInsert`
by `labelLe` never crosses an equal key. -/
theorem filter_orderedInsert_label (s : String) (a : String × V) (l : List (String × V)) :
    (l.orderedInsert labelLe a).filter (fun q => decide (q.1 = s))
      = if a.1 = s then a :: l.filter (fun q => decide (q.1 = s))
        else l.filter (fun q => decide (q.1 = s)) := by
  induction l with
  | nil =>
      simp [List.orderedInsert, List.filter]
      split <;> simp_all
  | cons b t ih =>
      by_cases hr : labelLe a b
      · simp only [List.orderedInsert, if_pos hr, List.filter]
        split <;> split <;> simp_all
      · simp only [List.orderedInsert, if_neg hr, List.filter]
        have hb : ¬(a.1 = s ∧ b.1 = s) := by
          rintro ⟨hx, hy⟩
          refine hr ?_
          show charListLe a.1.data b.1.data = true
          rw [hx, hy]
          exact charListLe_refl s.data
        rcases Decidable.em (b.1 = s) with hbs | hbs
        · have has : ¬a.1 = s := fun hx => hb ⟨hx, hbs⟩
          simp [hbs, has, ih]
        · simp [hbs, ih]

/-- Stability of `sortPairs`: for every label, the sublist of pairs carrying
that label is returned in its original order. -/
theorem filter_sortPairs (s : String) (ps : List (String × V)) :
    (sortPairs ps).filter (fun q => decide (q.1 = s))
      = ps.filter (fun q => decide (q.1 = s)) := by
  induction ps with
  | nil => rfl
  | cons a t ih =>
      simp only [sortPairs, List.insertionSort] at *
      rw [filter_orderedInsert_label]
      split <;> simp_all [List.filter]

/-- C6: `sortedNodes` pairs the nodes with their labels and stable-sorts the
pairs: the result is the node projection of a permutation of the labelled
input that is sorted ascending by label (lexicographic codepoint order,
which on UTF-8 data coincides with Go's byte order), and for every label the
nodes carrying it keep their original relative order. -/
theorem sortedNodes_stable_sorted_by_label (nodes : List V) (ps : List (String × V))
    (h : labelledList nodes = .ok ps) :
    sortedNodesM nodes = .ok ((sortPairs ps).map Prod.snd)
    ∧ (sortPairs ps).Perm ps
    ∧ (sortPairs ps).Sorted labelLe
    ∧ ∀ s, (sortPairs ps).filter (fun q => decide (q.1 = s))
        = ps.filter (fun q => decide (q.1 = s)) := by
  refine ⟨?_, ?_, ?_, ?_⟩
  · simp [sortedNodesM, h, Except.map]
  · exact List.perm_insertionSort labelLe ps
  · exact List.sorted_insertionSort labelLe ps
  · exact fun s => filter_sortPairs s ps

/-- Witness for C6 on a list with a duplicated label `"b"`: the two `"b"`
nodes (distinguished by their properties) keep their original relative order
around the sorted-in `"a"` node. -/
theorem sortedNodes_stable_sorted_by_label_witness :
    labelledList [V.stru "b" ["x"] [], V.stru "a" [] [], V.stru "b" ["y"] []]
      = .ok [("b", V.stru "b" ["x"] []), ("a", V.stru "a" [] []), ("b", V.stru "b" ["y"] [])]
    ∧ sortedNodesM [V.stru "b" ["x"] [], V.stru "a" [] [], V.stru "b" ["y"] []]
      = .ok [V.stru "a" [] [], V.stru "b" ["x"] [], V.stru "b" ["y"] []]
    ∧ (sortPairs [("b", V.stru "b" ["x"] []), ("a", V.stru "a" [] []),
        ("b", V.stru "b" ["y"] [])]).Perm
        [("b", V.stru "b" ["x"] []), ("a", V.stru "a" [] []), ("b", V.stru "b" ["y"] [])]
    ∧ (sortPairs [("b", V.stru "b" ["x"] []), ("a", V.stru "a" [] []),
        ("b", V.stru "b" ["y"] [])]).Sorted labelLe
    ∧ (sortPairs [("b", V.stru "b" ["x"] []), ("a", V.stru "a" [] []),
        ("b", V.stru "b" ["y"] [])]).filter (fun q => decide (q.1 = "b"))
      = [("b", V.stru "b" ["x"] []), ("b", V.stru "b" ["y"] [])] :=
  ⟨rfl,
    (sortedNodes_stable_sorted_by_label
      [V.stru "b" ["x"] [], V.stru "a" [] [], V.stru "b" ["y"] []]
      [("b", V.stru "b" ["x"] []), ("a", V.stru "a" [] []), ("b", V.stru "b" ["y"] [])]
      rfl).1,
    (sortedNodes_stable_sorted_by_label
      [V.stru "b" ["x"] [], V.stru "a" [] [], V.stru "b" ["y"] []]
      [("b", V.stru "b" ["x"] []), ("a", V.stru "a" [] []), ("b", V.stru "b" ["y"] [])]
      rfl).2.1,
    (sortedNodes_stable_sorted_by_label
      [V.stru "b" ["x"] [], V.stru "a" [] [], V.stru "b" ["y"] []]
      [("b", V.stru "b" ["x"] []), ("a", V.stru "a" [] []), ("b", V.stru "b" ["y"] [])]
      rfl).2.2.1,
    ((sortedNodes_stable_sorted_by_label
      [V.stru "b" ["x"] [], V.stru "a" [] [], V.stru "b" ["y"] []]
      [("b", V.stru "b" ["x"] []), ("a", V.stru "a" [] []), ("b", V.stru "b" ["y"] [])]
      rfl).2.2.2 "b").trans rfl⟩

/-- C7: in a successful subtree rendering (default visitor), when the node
has children, the line for the i-th property is exactly the
children-following styling of that property; when the node has no children,
it is the leaf styling; and under the default ASCII styler the two stylings
of one and the same property text are different lines. -/
theorem property_lines_follow_children_presence (sty : TreeStyler) (l : String)
    (ps : List String) (cs : List V) (fuel : Nat) (lines : List String)
    (h : renderSubtreeM DefaultVisitor sty (fuel + 1) (V.stru l ps cs) = .ok lines) :
    (∀ i p, ps[i]? = some p → cs ≠ [] →
        lines[i + 1]? = some (sty.renderPropertyChildrenFollowing (sty.renderProperty p)))
    ∧ (∀ i p, ps[i]? = some p → cs = [] →
        lines[i + 1]? = some (sty.renderPropertyNoChildrenFollowing (sty.renderProperty p)))
    ∧ (∀ p, DefaultTreeStyler.renderPropertyChildrenFollowing p
        ≠ DefaultTreeStyler.renderPropertyNoChildrenFollowing p) := by
  simp only [renderSubtreeM, GetM, nodeDetailsM, DefaultVisitor, Bind.bind, Except.bind,
    if_neg Bool.false_ne_true, Bool.false_eq_true, if_false, pure, Except.pure] at h
  cases hk : cs.mapM (fun c => renderSubtreeM ⟨false, false⟩ sty fuel c) with
  | error e => rw [hk] at h; cases h
  | ok ks =>
      rw [hk] at h
      simp only [Except.ok.injEq] at h
      subst h
      refine ⟨?_, ?_, ?_⟩
      · intro i p hp hcs
        have hi : i < ps.length := (List.getElem?_eq_some.mp hp).1
        have hlen : ¬cs.length = 0 := by
          simpa [List.length_eq_zero] using hcs
        simp [hlen, List.getElem?_append, hi, hp]
        rw [(List.getElem?_eq_some.mp hp).2]
      · intro i p hp hcs
        subst hcs
        have hi : i < ps.length := (List.getElem?_eq_some.mp hp).1
        simp [List.getElem?_append, hi, hp]
        rw [(List.getElem?_eq_some.mp hp).2]
      · intro p hcontra
        have hd := congrArg String.data hcontra
        have he1 : DefaultTreeStyler.renderPropertyChildrenFollowing p = "|  * " ++ p := rfl
        have he2 : DefaultTreeStyler.renderPropertyNoChildrenFollowing p = "   * " ++ p := rfl
        rw [he1, he2] at hd
        simp [String.data_append] at hd

/-- Witness for C7: the same property text `"p"` rendered under a node with
one child and under a leaf node, with the two resulting distinct lines. -/
theorem property_lines_follow_children_presence_witness :
    renderSubtreeM DefaultVisitor DefaultTreeStyler 2
        (V.stru "n" ["p"] [V.stru "c" [] []]) = .ok ["n", "|  * p", "`- c"]
    ∧ renderSubtreeM DefaultVisitor DefaultTreeStyler 2 (V.stru "n" ["p"] [])
        = .ok ["n", "   * p"]
    ∧ ["n", "|  * p", "`- c"][1]?
        = some (DefaultTreeStyler.renderPropertyChildrenFollowing
            (DefaultTreeStyler.renderProperty "p"))
    ∧ ["n", "   * p"][1]?
        = some (DefaultTreeStyler.renderPropertyNoChildrenFollowing
            (DefaultTreeStyler.renderProperty "p"))
    ∧ DefaultTreeStyler.renderPropertyChildrenFollowing "p"
        ≠ DefaultTreeStyler.renderPropertyNoChildrenFollowing "p" :=
  ⟨rfl, rfl,
    (property_lines_follow_children_presence DefaultTreeStyler "n" ["p"]
        [V.stru "c" [] []] 1 ["n", "|  * p", "`- c"] rfl).1 0 "p" rfl
      (List.cons_ne_nil _ _),
    (property_lines_follow_children_presence DefaultTreeStyler "n" ["p"]
        [] 1 ["n", "   * p"] rfl).2.1 0 "p" rfl rfl,
    (property_lines_follow_children_presence DefaultTreeStyler "n" ["p"]
        [] 1 ["n", "   * p"] rfl).2.2 "p"⟩

/-- Reading below the allocation point is unaffected by allocating a fresh
cell and writing to it (`slices.Clone`/`MakeSlice` + in-place sort of the
fresh cell). -/
theorem readStrs_freshset (h : StrHeap) (x y : List String) (b : Nat)
    (hb : b < h.length) :
    readStrs ((h ++ [x]).set h.length y) b = readStrs h b := by
  unfold readStrs
  rw [List.getElem?_set_ne hb.ne', List.getElem?_append, if_pos hb]

/-- Reading the freshly allocated cell yields the written contents. -/
theorem readStrs_freshset_self (h : StrHeap) (x y : List String) :
    readStrs ((h ++ [x]).set h.length y) h.length = y := by
  unfold readStrs
  rw [List.getElem?_set_eq_of_lt]
  · rfl
  · simp

/-- Writing one cell leaves every other cell unchanged. -/
theorem readStrs_set_ne (hh : StrHeap) (a bidx : Nat) (v : List String) (hne : a ≠ bidx) :
    readStrs (hh.set a v) bidx = readStrs hh bidx := by
  unfold readStrs
  rw [List.getElem?_set_ne hne]

/-- Reading back a written cell yields the written contents. -/
theorem readStrs_set_self (hh : StrHeap) (a : Nat) (v : List String) (ha : a < hh.length) :
    readStrs (hh.set a v) a = v := by
  unfold readStrs
  rw [List.getElem?_set_eq_of_lt v ha]
  rfl

/-- C9 counterexample: a node whose properties slice holds `["b", "a"]`,
visited by the legacy visitor with property sorting enabled. After `Get`
returns, the caller's properties cell has been sorted in place: it now holds
`["a", "b"]`, not its original contents. -/
theorem legacy_get_mutates_callers_properties :
    GetLegacy false true [["b", "a"]] 0 0 = ([["a", "b"]], ["a", "b"], ["b", "a"])
    ∧ readStrs [["a", "b"]] 0 ≠ readStrs [["b", "a"]] 0 :=
  ⟨rfl, by decide⟩

/-- C9 amended: with any sorting configuration, the current visitor's `Get`
leaves every caller-owned cell unchanged (properties are sorted on a clone,
children on freshly built slices) and returns the optionally sorted
contents; the legacy `Get` also leaves every cell other than the node's
properties cell unchanged (children are sorted on a copy), but with property
sorting enabled it sorts the caller's properties cell in place. -/
theorem get_property_sorting_aliasing (sn sp : Bool) (h : StrHeap) (pa ka : Nat)
    (hpa : pa < h.length) (_hka : ka < h.length) :
    (∀ b, b < h.length → readStrs (GetCurrent sn sp h pa ka).1 b = readStrs h b)
    ∧ (GetCurrent sn sp h pa ka).2.1
        = (if sp then sortStrings (readStrs h pa) else readStrs h pa)
    ∧ (GetCurrent sn sp h pa ka).2.2
        = (if sn then sortStrings (readStrs h ka) else readStrs h ka)
    ∧ (∀ b, b < h.length → b ≠ pa → readStrs (GetLegacy sn sp h pa ka).1 b = readStrs h b)
    ∧ (sp = true → readStrs (GetLegacy sn sp h pa ka).1 pa = sortStrings (readStrs h pa)) := by
  have hkb : ((h ++ [readStrs h ka]).set h.length (sortStrings (readStrs h ka))).length
      = h.length + 1 := by
    simp
  refine ⟨?_, ?_, ?_, ?_, ?_⟩
  · intro b hb
    cases sp with
    | false => rfl
    | true => exact readStrs_freshset h (readStrs h pa) (sortStrings (readStrs h pa)) b hb
  · cases sp with
    | false => rfl
    | true => exact readStrs_freshset_self h (readStrs h pa) (sortStrings (readStrs h pa))
  · cases sp with
    | false => rfl
    | true => rfl
  · intro b hb hbpa
    cases sn with
    | false =>
        cases sp with
        | false => rfl
        | true => exact readStrs_set_ne h pa b _ (Ne.symm hbpa)
    | true =>
        cases sp with
        | false =>
            exact readStrs_freshset h (readStrs h ka) (sortStrings (readStrs h ka)) b hb
        | true =>
            exact (readStrs_set_ne
                ((h ++ [readStrs h ka]).set h.length (sortStrings (readStrs h ka)))
                pa b _ (Ne.symm hbpa)).trans
              (readStrs_freshset h (readStrs h ka) (sortStrings (readStrs h ka)) b hb)
  · intro hsp
    subst hsp
    cases sn with
    | false => exact readStrs_set_self h pa _ hpa
    | true =>
        exact (readStrs_set_self
            ((h ++ [readStrs h ka]).set h.length (sortStrings (readStrs h ka)))
            pa _ (by rw [hkb]; exact Nat.lt_succ_of_lt hpa)).trans
          (congrArg sortStrings
            (readStrs_freshset h (readStrs h ka) (sortStrings (readStrs h ka)) pa hpa))

/-- Witness for C9 (amended) on a two-cell heap with both sortings on. -/
theorem get_property_sorting_aliasing_witness :
    (0 : Nat) < ([["b", "a"], ["d", "c"]] : StrHeap).length
    ∧ (1 : Nat) < ([["b", "a"], ["d", "c"]] : StrHeap).length
    ∧ (∀ b, b < ([["b", "a"], ["d", "c"]] : StrHeap).length →
        readStrs (GetCurrent true true [["b", "a"], ["d", "c"]] 0 1).1 b
          = readStrs [["b", "a"], ["d", "c"]] b)
    ∧ (GetCurrent true true [["b", "a"], ["d", "c"]] 0 1).2.1
        = sortStrings (readStrs [["b", "a"], ["d", "c"]] 0)
    ∧ readStrs (GetLegacy true true [["b", "a"], ["d", "c"]] 0 1).1 0
        = sortStrings (readStrs [["b", "a"], ["d", "c"]] 0) := by
  have hmain := get_property_sorting_aliasing true true [["b", "a"], ["d", "c"]] 0 1
    (by decide) (by decide)
  exact ⟨by decide, by decide, hmain.1, hmain.2.1.trans (by rfl), hmain.2.2.2.2 rfl⟩

/-- Removing the `label` key leaves every other key's lookup unchanged. -/
theorem lookupV_eraseLabelKey_other (m : List (String × V)) (k : String)
    (hk : k ≠ "label") : lookupV (eraseLabelKey m) k = lookupV m k := by
  induction m with
  | nil => rfl
  | cons p rest ih =>
      obtain ⟨pk, pv⟩ := p
      by_cases hpk : pk = "label"
      · subst hpk
        simp [eraseLabelKey, lookupV, hk, ih]
      · by_cases hkp : k = pk
        · subst hkp
          simp [eraseLabelKey, lookupV, hpk]
        · simp [eraseLabelKey, lookupV, hpk, hkp, ih]

/-- After removing the `label` key, looking it up yields nothing. -/
theorem lookupV_eraseLabelKey_label (m : List (String × V)) :
    lookupV (eraseLabelKey m) "label" = none := by
  induction m with
  | nil => rfl
  | cons p rest ih =>
      obtain ⟨pk, pv⟩ := p
      by_cases hpk : pk = "label"
      · subst hpk
        simp [eraseLabelKey, lookupV, ih]
      · simp [eraseLabelKey, lookupV, hpk, Ne.symm hpk, ih]

/-- C10: for a map node whose `label` key holds a non-string value, both
`Label` (via `nodeLabel`) and `Get` (via `nodeDetails`) return the empty
label without faulting, exactly as if the `label` key were absent. -/
theorem nonstring_map_label_treated_as_absent (m : List (String × V)) (v : V)
    (hlk : lookupV m "label" = some v) (hns : isStrV v = false) :
    nodeLabelM (.mapn m) = .ok ""
    ∧ nodeLabelM (.mapn m) = nodeLabelM (.mapn (eraseLabelKey m))
    ∧ GetM DefaultVisitor (.mapn m) = GetM DefaultVisitor (.mapn (eraseLabelKey m))
    ∧ (GetM DefaultVisitor (.mapn m)).map (fun t => t.1) = .ok "" := by
  have hprop : lookupV (eraseLabelKey m) "properties" = lookupV m "properties" :=
    lookupV_eraseLabelKey_other m "properties" (by decide)
  have hchild : lookupV (eraseLabelKey m) "children" = lookupV m "children" :=
    lookupV_eraseLabelKey_other m "children" (by decide)
  have hlab := lookupV_eraseLabelKey_label m
  cases v with
  | strv s => simp [isStrV] at hns
  | intv n =>
      refine ⟨?_, ?_, ?_, ?_⟩
      · simp [nodeLabelM, hlk]
      · simp [nodeLabelM, hlk, hlab]
      · simp [GetM, nodeDetailsM, hlk, hprop, hchild, hlab]
      · cases hch : lookupV m "children" <;>
          simp [GetM, nodeDetailsM, hlk, hch, Except.map, DefaultVisitor, pure, Except.pure,
            Bind.bind, Except.bind]
  | strs ss =>
      refine ⟨?_, ?_, ?_, ?_⟩
      · simp [nodeLabelM, hlk]
      · simp [nodeLabelM, hlk, hlab]
      · simp [GetM, nodeDetailsM, hlk, hprop, hchild, hlab]
      · cases hch : lookupV m "children" <;>
          simp [GetM, nodeDetailsM, hlk, hch, Except.map, DefaultVisitor, pure, Except.pure,
            Bind.bind, Except.bind]
  | list xs =>
      refine ⟨?_, ?_, ?_, ?_⟩
      · simp [nodeLabelM, hlk]
      · simp [nodeLabelM, hlk, hlab]
      · simp [GetM, nodeDetailsM, hlk, hprop, hchild, hlab]
      · cases hch : lookupV m "children" <;>
          simp [GetM, nodeDetailsM, hlk, hch, Except.map, DefaultVisitor, pure, Except.pure,
            Bind.bind, Except.bind]
  | stru l ps cs =>
      refine ⟨?_, ?_, ?_, ?_⟩
      · simp [nodeLabelM, hlk]
      · simp [nodeLabelM, hlk, hlab]
      · simp [GetM, nodeDetailsM, hlk, hprop, hchild, hlab]
      · cases hch : lookupV m "children" <;>
          simp [GetM, nodeDetailsM, hlk, hch, Except.map, DefaultVisitor, pure, Except.pure,
            Bind.bind, Except.bind]
  | mapn entries =>
      refine ⟨?_, ?_, ?_, ?_⟩
      · simp [nodeLabelM, hlk]
      · simp [nodeLabelM, hlk, hlab]
      · simp [GetM, nodeDetailsM, hlk, hprop, hchild, hlab]
      · cases hch : lookupV m "children" <;>
          simp [GetM, nodeDetailsM, hlk, hch, Except.map, DefaultVisitor, pure, Except.pure,
            Bind.bind, Except.bind]

/-- Witness for C10 at the map `[("label", 42)]`. -/
theorem nonstring_map_label_treated_as_absent_witness :
    lookupV [("label", V.intv 42)] "label" = some (V.intv 42)
    ∧ isStrV (V.intv 42) = false
    ∧ nodeLabelM (.mapn [("label", V.intv 42)]) = .ok ""
    ∧ nodeLabelM (.mapn [("label", V.intv 42)])
        = nodeLabelM (.mapn (eraseLabelKey [("label", V.intv 42)]))
    ∧ GetM DefaultVisitor (.mapn [("label", V.intv 42)])
        = GetM DefaultVisitor (.mapn (eraseLabelKey [("label", V.intv 42)]))
    ∧ (GetM DefaultVisitor (.mapn [("label", V.intv 42)])).map (fun t => t.1) = .ok "" :=
  ⟨rfl, rfl,
    (nonstring_map_label_treated_as_absent [("label", V.intv 42)] (V.intv 42) rfl rfl).1,
    (nonstring_map_label_treated_as_absent [("label", V.intv 42)] (V.intv 42) rfl rfl).2.1,
    (nonstring_map_label_treated_as_absent [("label", V.intv 42)] (V.intv 42) rfl rfl).2.2.1,
    (nonstring_map_label_treated_as_absent [("label", V.intv 42)] (V.intv 42) rfl rfl).2.2.2⟩
